import Mathlib

/-!
Shallow embedding of `download.py`, a script that authenticates to Notion,
enqueues an HTML export task for one page, polls the task status until it is
complete, downloads and unpacks the resulting zip archive, rewrites the
exported HTML into a stable `index.html` + `assets` layout, and publishes the
result by merge-copying it over the repository directory.

Network transport, JSON decoding and raw file I/O are thin wrappers around the
logic modelled here; the embedding works on already-decoded values (task-status
entries, directory listings, configuration records) and models each operation
of the script as a pure function on those values.
-/

/-! ## String utilities

`download.py` manipulates HTML text with Python's `str.replace` and
`urllib.parse.quote`; both are modelled here on `List Char` and wrapped for
`String`.
-/

/-- Concatenation of the images of `f` over a list (Python's flattening
comprehensions). -/
def concatMapL {α β : Type} (f : α → List β) : List α → List β
  | [] => []
  | a :: l => f a ++ concatMapL f l

/-- Does `pat` occur at the head of `l`? -/
def matchesAt : List Char → List Char → Bool
  | p :: ps, c :: cs => p == c && matchesAt ps cs
  | [], _ => true
  | _, _ => false

/-- Does `l` end with `suf`? -/
def hasSuffixL (l suf : List Char) : Bool :=
  matchesAt suf.reverse l.reverse

/-- Scanning loop of Python's `str.replace` for a non-empty pattern:
leftmost-first, non-overlapping.  The fuel argument (instantiated with the
length of the scanned text, which every step consumes at least one character
of) only makes the structural recursion evident. -/
def pyReplaceLoop (pat rep : List Char) : Nat → List Char → List Char
  | _, [] => []
  | 0, s => s
  | fuel + 1, c :: cs =>
    if matchesAt pat (c :: cs) then
      rep ++ pyReplaceLoop pat rep fuel (cs.drop (pat.length - 1))
    else
      c :: pyReplaceLoop pat rep fuel cs

/-- Python's `str.replace(pat, rep)`.  For an empty pattern Python inserts
`rep` before every character and at the end (`"ab".replace("", "-") =
"-a-b-"`). -/
def pyReplace (pat rep s : List Char) : List Char :=
  match pat with
  | [] => rep ++ concatMapL (fun c => c :: rep) s
  | _ :: _ => pyReplaceLoop pat rep s.length s

/-- `s.replace(pat, rep)` on `String`. -/
def sReplace (s pat rep : String) : String :=
  ⟨pyReplace pat.data rep.data s.data⟩

/-- The characters `urllib.parse.quote` leaves unquoted with its default
`safe="/"`: ASCII letters, digits, `_.-~` and `/`. -/
def isQuoteSafe (c : Char) : Bool :=
  (decide ('A' ≤ c) && decide (c ≤ 'Z')) ||
  (decide ('a' ≤ c) && decide (c ≤ 'z')) ||
  (decide ('0' ≤ c) && decide (c ≤ '9')) ||
  c == '_' || c == '.' || c == '-' || c == '~' || c == '/'

/-- UTF-8 encoding of a Unicode scalar value, as byte values. -/
def utf8Bytes (n : Nat) : List Nat :=
  if n < 128 then [n]
  else if n < 2048 then [192 + n / 64, 128 + n % 64]
  else if n < 65536 then [224 + n / 4096, 128 + n / 64 % 64, 128 + n % 64]
  else [240 + n / 262144, 128 + n / 4096 % 64, 128 + n / 64 % 64, 128 + n % 64]

/-- Uppercase hexadecimal digit of `n % 16` (code points `0`..`9`, `A`..`F`). -/
def hexUpperDigit (n : Nat) : Char :=
  if n % 16 < 10 then Char.ofNat (48 + n % 16) else Char.ofNat (55 + n % 16)

/-- Percent-encoding of one byte, `%XX` with uppercase hex as
`urllib.parse.quote` produces. -/
def pctEncByte (b : Nat) : List Char :=
  ['%', hexUpperDigit (b / 16), hexUpperDigit (b % 16)]

/-- `urllib.parse.quote` on a single character: safe characters pass through,
all others are percent-encoded byte by byte of their UTF-8 form. -/
def quoteChar (c : Char) : List Char :=
  if isQuoteSafe c then [c] else concatMapL pctEncByte (utf8Bytes c.toNat)

/-- `urllib.parse.quote(s)` with the default `safe="/"`. -/
def pyQuote (s : String) : String :=
  ⟨concatMapL quoteChar s.data⟩

/-! ## Section 1: task polling

Models `NotionClient.get_user_task_status` and the `while True` polling loop
inside `NotionClient.download_page`.
-/

/-- The decoded `"status"` object of one task entry of a `getTasks` response:
`{"type": ..., "exportURL": ...}`.  `exportURL` is `none` when the key is
absent from the JSON object. -/
structure TaskStatus where
  type : String
  exportURL : Option String
  deriving DecidableEq, Repr

/-- One element of the `"results"` list of a `getTasks` response.  `status` is
`none` when the entry has no `"status"` key. -/
structure TaskEntry where
  id : String
  status : Option TaskStatus
  deriving DecidableEq, Repr

/-- Failures of the polling code.  `statusError` models the `IndexError`
raised by `get_user_task_status` when the target id is absent from the
response (the spec's `ExportStatusError`).  `exhausted` is an artefact of the
embedding: the source loop is unbounded, and the embedding scripts the
successive server responses as a finite list, so running past the end of the
script is reported as `exhausted`. -/
inductive PollError where
  | statusError
  | exhausted
  deriving DecidableEq, Repr

/-- What one run of the polling loop did: how many times it called
`get_user_task_status`, the durations (in seconds) of the `sleep` calls it
performed in order, and the final task entry it broke out of the loop with. -/
structure PollOutcome where
  polls : Nat
  sleeps : List Nat
  final : TaskEntry
  deriving DecidableEq, Repr

/-- `get_user_task_status`: posts `getTasks` for `[task_id]` and returns
`list(filter(lambda t: t["id"] == task_id, results))[0]`.  The `[0]` on an
empty list raises `IndexError`, modelled as `.error .statusError`. -/
def get_user_task_status (task_id : String) (results : List TaskEntry) :
    Except PollError TaskEntry :=
  match results.filter (fun s => s.id == task_id) with
  | [] => .error .statusError
  | e :: _ => .ok e

/-- The loop condition of `download_page`:
`"status" in task_status and task_status["status"]["type"] == "complete"`. -/
def isComplete (e : TaskEntry) : Bool :=
  match e.status with
  | some st => st.type == "complete"
  | none => false

/-- `wait_time = 3  # [s]` in `download_page`. -/
def wait_time : Nat := 3

/-- The `while True` polling loop of `download_page`, run against a finite
script of successive `getTasks` responses (one response per loop iteration).
Each iteration polls once; if the entry is complete the loop breaks, otherwise
it sleeps `wait_time` seconds and re-polls against the next response.
An `IndexError` from `get_user_task_status` propagates.  Running out of
scripted responses yields the embedding-only `.exhausted`. -/
def wait_for_completion (task_id : String) :
    List (List TaskEntry) → Except PollError PollOutcome
  | [] => .error .exhausted
  | r :: rs =>
    match get_user_task_status task_id r with
    | .error err => .error err
    | .ok st =>
      if isComplete st then
        .ok ⟨1, [], st⟩
      else
        match wait_for_completion task_id rs with
        | .ok o => .ok ⟨o.polls + 1, wait_time :: o.sleeps, o.final⟩
        | .error err => .error err

/-- `task_status["status"]["exportURL"]` as an optional lookup. -/
def export_url (e : TaskEntry) : Option String :=
  e.status.bind (fun st => st.exportURL)

/-- The poll-and-extract part of `download_page`: run the polling loop and
read `task_status["status"]["exportURL"]` from the final entry. -/
def download_page_url (task_id : String) (responses : List (List TaskEntry)) :
    Except PollError (PollOutcome × Option String) :=
  match wait_for_completion task_id responses with
  | .ok o => .ok (o, export_url o.final)
  | .error err => .error err

/-! ## Section 2: configuration loading (`load_notion_config`)

Models the UUID canonicalisation `str(uuid.UUID(x))` that
`load_notion_config` applies to the `space_id` and `block_id` fields of the
already-parsed JSON configuration record.  Reading the file and decoding the
JSON are thin I/O outside the embedding.

CPython's `uuid.UUID(hex)` constructor removes every occurrence of `urn:` and
`uuid:`, strips `{`/`}` characters from both ends, removes every `-`, requires
exactly 32 characters to remain, and parses them as hexadecimal;
`str(uuid.UUID(...))` prints the 128-bit value as 32 lowercase hex digits in
the dashed 8-4-4-4-12 layout.
-/

/-- Is the character one of the two brace characters `uuid.UUID` strips from
the ends of its argument?  (Written via code points to keep brace characters
out of the source text.) -/
def isBraceChar (c : Char) : Bool :=
  c == Char.ofNat 123 || c == Char.ofNat 125

/-- Python's `str.strip(chars)`: drop characters satisfying `p` from both
ends. -/
def dropWhileBoth (p : Char → Bool) (l : List Char) : List Char :=
  ((l.dropWhile p).reverse.dropWhile p).reverse

/-- The cleaning phase of `uuid.UUID(hex)`:
`hex.replace("urn:", "").replace("uuid:", "").strip(braces).replace("-", "")`. -/
def uuid_clean (s : String) : List Char :=
  pyReplace ['-'] []
    (dropWhileBoth isBraceChar
      (pyReplace "uuid:".data [] (pyReplace "urn:".data [] s.data)))

/-- Value of one hexadecimal digit character, `none` for any other
character. -/
def hexVal : Char → Option Nat := fun c =>
  if decide ('0' ≤ c) && decide (c ≤ '9') then some (c.toNat - 48)
  else if decide ('a' ≤ c) && decide (c ≤ 'f') then some (c.toNat - 87)
  else if decide ('A' ≤ c) && decide (c ≤ 'F') then some (c.toNat - 55)
  else none

/-- Big-endian accumulation of hexadecimal digits (`int(hex, 16)` on a pure
digit string). -/
def hexAccum : List Char → Nat → Option Nat
  | [], acc => some acc
  | c :: rest, acc =>
    match hexVal c with
    | none => none
    | some v => hexAccum rest (acc * 16 + v)

/-- The 128-bit value denoted by a textual UUID form, per `uuid.UUID`:
clean the text, require exactly 32 remaining characters, parse them as
hexadecimal.  `none` models the `ValueError` for malformed input. -/
def uuidValue (s : String) : Option Nat :=
  if (uuid_clean s).length = 32 then hexAccum (uuid_clean s) 0 else none

/-- Is the character a lowercase hexadecimal digit? -/
def isHexLowerChar (c : Char) : Bool :=
  (decide ('0' ≤ c) && decide (c ≤ '9')) || (decide ('a' ≤ c) && decide (c ≤ 'f'))

/-- Lowercase hexadecimal digit for `n < 16` (code points `0`..`9`,
`a`..`f`). -/
def nibble (n : Nat) : Char :=
  if n < 10 then Char.ofNat (48 + n) else Char.ofNat (87 + n)

/-- The last `k` hexadecimal digits of `v`, most significant first
(Python's `"%032x" % v` for `k = 32`). -/
def toHexFixed : Nat → Nat → List Char
  | 0, _ => []
  | k + 1, v => toHexFixed k (v / 16) ++ [nibble (v % 16)]

/-- Dash layout of `str(uuid.UUID(...))`: 8-4-4-4-12. -/
def insertDashes (h : List Char) : List Char :=
  h.take 8 ++ '-' :: ((h.drop 8).take 4) ++ '-' :: ((h.drop 12).take 4) ++
    '-' :: ((h.drop 16).take 4) ++ '-' :: (h.drop 20)

/-- `str(uuid.UUID(...))` for the 128-bit value `v`: 32 lowercase hex digits
in dashed layout. -/
def uuidFormat (v : Nat) : String :=
  ⟨insertDashes (toHexFixed 32 v)⟩

/-- `str(uuid.UUID(s))`: parse a textual form, reprint it canonically. -/
def pyUUID (s : String) : Option String :=
  (uuidValue s).map uuidFormat

/-- The parsed configuration record `{email, space_id, block_id}`. -/
structure NotionConfig where
  email : String
  space_id : String
  block_id : String
  deriving DecidableEq, Repr

/-- `load_notion_config` after JSON decoding: replace both id fields by
`str(uuid.UUID(field))`; a malformed field raises (`none`). -/
def load_notion_config (data : NotionConfig) : Option NotionConfig :=
  match pyUUID data.space_id, pyUUID data.block_id with
  | some s, some b => some ⟨data.email, s, b⟩
  | _, _ => none

/-- A string is a canonical dashed-lowercase UUID when it is the 8-4-4-4-12
dash layout of 32 lowercase hexadecimal digits. -/
def IsCanonicalUUID (s : String) : Prop :=
  ∃ h : List Char, h.length = 32 ∧ (∀ c ∈ h, isHexLowerChar c = true) ∧
    s.data = insertDashes h

/-! ## Section 3: orchestration (`main`)

`main` loads the configuration, reads `NOTION_TOKEN`, and branches on
`if not token:` (true when the variable is unset, `none`, or set to the empty
string).  The embedding records the sequence of operations `main` invokes in
each branch; `extraPolls` is the number of not-yet-complete polling iterations
of the token branch, whose bodies are modelled elsewhere.
-/

/-- The externally visible operations `main` can invoke, in the script's
vocabulary: the two credential-exchange calls, and the export pipeline of the
token branch. -/
inductive OpAction where
  | askOtp
  | getToken
  | enqueueExport
  | pollStatus
  | downloadArchive
  | unpack
  | rewriteSite
  | publishSite
  deriving DecidableEq, Repr

/-- The sequence of operations `main` performs, by branch: without a token it
calls `ask_otp` and `get_token`, prints the token and returns; with a token it
enqueues the export, polls until complete, downloads, unpacks, rewrites and
publishes. -/
def main_actions (token : Option String) (extraPolls : Nat) : List OpAction :=
  if token = none ∨ token = some "" then
    [.askOtp, .getToken]
  else
    [.enqueueExport] ++ List.replicate extraPolls .pollStatus ++
      [.pollStatus, .downloadArchive, .unpack, .rewriteSite, .publishSite]

/-! ## Section 4: site rewriting (`rewrite_html`)

Models `rewrite_html(output_dir)` on the top level of the extracted directory:
it globs `*.html`, asserts exactly one match, derives the asset-folder name
from the HTML filename minus its extension, replaces the URL-quoted folder
name by `assets` in the HTML text, appends the stylesheet link and the fixed
favicon block, writes the file back, renames it to `index.html`, and renames
the asset folder to `assets`.
-/

/-- One top-level entry of the extracted directory: a file with its text
content, or a subdirectory (whose own contents `rewrite_html` never reads;
renaming preserves them, so they are not modelled). -/
structure Entry where
  name : String
  isDir : Bool
  content : String
  deriving DecidableEq, Repr

/-- Failures of `rewrite_html`.  `layoutError` models the `assert` on the
number of glob matches (the spec's `LayoutError`); `readError` models
`read_text` called on a directory; `renameError` models an `OSError` from
`Path.rename`.  Each error carries the directory contents at the moment of
failure. -/
inductive RewriteError where
  | layoutError
  | readError
  | renameError
  deriving DecidableEq, Repr

/-- `Path.glob("*.html")` membership for one name: `pathlib`'s glob is
fnmatch-based, so any entry whose name ends in `.html` matches — including
hidden names with a leading dot such as `.b.html` or `.html` itself (unlike
the `glob` module, `pathlib.Path.glob` does not special-case them). -/
def globStarHtml (s : String) : Bool :=
  hasSuffixL s.data ".html".data

/-- `list(output_dir.glob("*.html"))`, in directory order. -/
def glob_html (d : List Entry) : List Entry :=
  d.filter (fun e => globStarHtml e.name)

/-- `html_path.name[:-5]`: the filename minus its last five characters. -/
def html_base_name (s : String) : String :=
  ⟨s.data.take (s.data.length - 5)⟩

/-- The stylesheet tag appended by `rewrite_html`. -/
def stylesheet_tag : String :=
  "\n<link rel=\"stylesheet\" href=\"styles.css\" />"

/-- The fixed favicon block appended by `rewrite_html` (the exact triple-quoted
string of the source, including its leading newlines and indentation). -/
def favicon_tags : String :=
  "\n\n\n    <link rel=\"apple-touch-icon\" sizes=\"180x180\" href=\"/favicon/apple-touch-icon.png\">\n    <link rel=\"icon\" type=\"image/png\" sizes=\"32x32\" href=\"/favicon/favicon-32x32.png\">\n    <link rel=\"icon\" type=\"image/png\" sizes=\"16x16\" href=\"/favicon/favicon-16x16.png\">\n    <link rel=\"manifest\" href=\"/favicon/site.webmanifest\">\n    <link rel=\"mask-icon\" href=\"/favicon/safari-pinned-tab.svg\" color=\"#5bbad5\">\n    <link rel=\"shortcut icon\" href=\"/favicon/favicon.ico\">\n    <meta name=\"msapplication-TileColor\" content=\"#da532c\">\n    <meta name=\"msapplication-config\" content=\"/favicon/browserconfig.xml\">\n    <meta name=\"theme-color\" content=\"#ffffff\">\n    "

/-- The text transformation of `rewrite_html`: replace every occurrence of
`urllib.parse.quote(name)` by `assets`, then append the stylesheet tag and the
favicon block. -/
def rewritten_content (content name : String) : String :=
  sReplace content (pyQuote name) "assets" ++ stylesheet_tag ++ favicon_tags

/-- `Path.rename` at the top level of the directory, with POSIX semantics:
the source entry must exist; renaming to the same name is a no-op; renaming a
file over an existing file silently replaces it; renaming over an existing
entry of a different kind fails; renaming a directory over an existing
directory is modelled as a failure (POSIX allows it only for an empty
destination, and the embedding does not track subdirectory contents). -/
def rename_entry (d : List Entry) (src dst : String) : Option (List Entry) :=
  match d.find? (fun e => e.name == src) with
  | none => none
  | some e =>
    if src == dst then some d
    else
      match d.find? (fun e2 => e2.name == dst) with
      | none => some (d.map (fun x => if x.name == src then ⟨dst, x.isDir, x.content⟩ else x))
      | some e2 =>
        if !e.isDir && !e2.isDir then
          some ((d.filter (fun x => !(x.name == dst))).map
            (fun x => if x.name == src then ⟨dst, x.isDir, x.content⟩ else x))
        else none

/-- `rewrite_html` on the top-level listing of the extracted directory.
Errors carry the directory contents at the time of failure; in particular the
`assert len(matches) == 1` fires before any modification. -/
def rewrite_html (d : List Entry) : Except (RewriteError × List Entry) (List Entry) :=
  match glob_html d with
  | [e] =>
    if e.isDir then .error (.readError, d)
    else
      let name := html_base_name e.name
      let d1 := d.map (fun x =>
        if x.name == e.name then ⟨x.name, x.isDir, rewritten_content e.content name⟩
        else x)
      match rename_entry d1 e.name "index.html" with
      | none => .error (.renameError, d1)
      | some d2 =>
        match rename_entry d2 name "assets" with
        | none => .error (.renameError, d2)
        | some d3 => .ok d3
  | _ => .error (.layoutError, d)

/-! ## Section 5: publishing (`shutil.copytree(..., dirs_exist_ok=True)`)

`main` publishes with `shutil.copytree(src=output_dir, dst=repo_dir,
dirs_exist_ok=True)`: it walks the source tree, copying files over
identically-named destination files and recursively merging directories,
while destination entries whose names do not occur in the source are left
alone.
-/

/-- A file tree: a file with its content, or a directory listing mapping
names to subtrees. -/
inductive FTree where
  | file (content : String)
  | dir (entries : List (String × FTree))
  deriving Repr

/-- Look a name up in a directory listing. -/
def lookupEntry : List (String × FTree) → String → Option FTree
  | [], _ => none
  | (m, t) :: rest, n => if m == n then some t else lookupEntry rest n

/-- Write a name into a directory listing, replacing an existing binding or
appending a new one. -/
def setEntry : List (String × FTree) → String → FTree → List (String × FTree)
  | [], n, t => [(n, t)]
  | (m, u) :: rest, n, t =>
    if m == n then (m, t) :: rest else (m, u) :: setEntry rest n t

mutual

/-- Copy one source subtree over the destination entry of the same name
(`none` when the destination has no such entry): a file overwrites a file or
fills a vacant name but cannot replace a directory (`copy2` raises
`IsADirectoryError`); a directory merges into an existing directory or a
vacant name but cannot replace a file (`os.makedirs` raises). -/
def mergeEntry : FTree → Option FTree → Option FTree
  | .file c, none => some (.file c)
  | .file c, some (.file _) => some (.file c)
  | .file _, some (.dir _) => none
  | .dir se, none => (mergeEntries se []).map FTree.dir
  | .dir se, some (.file _) => none
  | .dir se, some (.dir de) => (mergeEntries se de).map FTree.dir

/-- `shutil.copytree(src, dst, dirs_exist_ok=True)` on directory listings:
iterate over the source entries in order, merging each into the destination;
destination entries with other names persist. -/
def mergeEntries : List (String × FTree) → List (String × FTree) →
    Option (List (String × FTree))
  | [], dst => some dst
  | (n, t) :: rest, dst =>
    match mergeEntry t (lookupEntry dst n) with
    | none => none
    | some t2 => mergeEntries rest (setEntry dst n t2)

end

/-- Are the names of a directory listing pairwise distinct?  (True of any
listing that came from a real filesystem directory.) -/
def keysNodupB : List (String × FTree) → Bool
  | [] => true
  | (n, _) :: rest => !(rest.any (fun p => p.1 == n)) && keysNodupB rest

mutual

/-- Well-formedness of a file tree: every directory listing in it has
pairwise-distinct names. -/
def wfTree : FTree → Bool
  | .file _ => true
  | .dir es => keysNodupB es && wfE es

/-- Well-formedness of every subtree of a directory listing. -/
def wfE : List (String × FTree) → Bool
  | [] => true
  | (_, t) :: rest => wfTree t && wfE rest

end

/-- Follow a path of names down a directory listing. -/
def lookupPath : List (String × FTree) → List String → Option FTree
  | _, [] => none
  | es, [n] => lookupEntry es n
  | es, n :: rest =>
    match lookupEntry es n with
    | some (.dir es2) => lookupPath es2 rest
    | _ => none

/-- Concrete rewritten site used by the publish witness. -/
def srcSiteEx : List (String × FTree) :=
  [("index.html", .file "new-index"),
   ("assets", .dir [("img.png", .file "new-img")])]

/-- Concrete pre-existing deployment directory used by the publish witness:
it holds an unrelated `README.md` and `styles.css`, an old `index.html`, and
an old `assets` directory with a stale extra file. -/
def dstSiteEx : List (String × FTree) :=
  [("README.md", .file "readme-v1"),
   ("styles.css", .file "body: none"),
   ("index.html", .file "old-index"),
   ("assets", .dir [("img.png", .file "old-img"), ("stale.css", .file "stale")])]

/-- The merge of `srcSiteEx` over `dstSiteEx`. -/
def resSiteEx : List (String × FTree) :=
  [("README.md", .file "readme-v1"),
   ("styles.css", .file "body: none"),
   ("index.html", .file "new-index"),
   ("assets", .dir [("img.png", .file "new-img"), ("stale.css", .file "stale")])]

/-! ## Helper lemmas -/

theorem lookup_setEntry_self (d : List (String × FTree)) (n : String) (t : FTree) :
    lookupEntry (setEntry d n t) n = some t := by
  induction d with
  | nil => simp [setEntry, lookupEntry]
  | cons p rest ih =>
    obtain ⟨m, u⟩ := p
    by_cases hmn : m = n
    · subst hmn; simp [setEntry, lookupEntry]
    · simp [setEntry, lookupEntry, hmn, ih]

theorem lookup_setEntry_ne (d : List (String × FTree)) (m n : String) (t : FTree)
    (h : m ≠ n) : lookupEntry (setEntry d m t) n = lookupEntry d n := by
  induction d with
  | nil => simp [setEntry, lookupEntry, h]
  | cons p rest ih =>
    obtain ⟨k, u⟩ := p
    by_cases hkm : k = m
    · subst hkm; simp [setEntry, lookupEntry, h]
    · simp [setEntry, lookupEntry, hkm, ih]

theorem merge_frame (n : String) :
    ∀ (src dst res : List (String × FTree)),
      mergeEntries src dst = some res →
      src.any (fun p => p.1 == n) = false →
      lookupEntry res n = lookupEntry dst n := by
  intro src
  induction src with
  | nil =>
    intro dst res h _
    simp only [mergeEntries, Option.some.injEq] at h
    subst h; rfl
  | cons p rest ih =>
    obtain ⟨m, t⟩ := p
    intro dst res h hn
    simp only [List.any_cons, Bool.or_eq_false_iff] at hn
    obtain ⟨hm, hrest⟩ := hn
    have hmn : m ≠ n := by simpa using hm
    simp only [mergeEntries] at h
    cases hmt : mergeEntry t (lookupEntry dst m) with
    | none => rw [hmt] at h; simp at h
    | some t2 =>
      rw [hmt] at h
      simp only at h
      rw [ih (setEntry dst m t2) res h hrest]
      exact lookup_setEntry_ne dst m n t2 hmn

theorem merge_file (n c : String) :
    ∀ (src dst res : List (String × FTree)),
      keysNodupB src = true →
      mergeEntries src dst = some res →
      lookupEntry src n = some (.file c) →
      lookupEntry res n = some (.file c) := by
  intro src
  induction src with
  | nil => intro dst res _ _ hl; simp [lookupEntry] at hl
  | cons p rest ih =>
    obtain ⟨m, t⟩ := p
    intro dst res hnd h hl
    simp only [keysNodupB, Bool.and_eq_true, Bool.not_eq_eq_eq_not, Bool.not_true] at hnd
    obtain ⟨hany, hndrest⟩ := hnd
    simp only [mergeEntries] at h
    by_cases hmn : m = n
    · subst hmn
      rw [lookupEntry, if_pos (by simp)] at hl
      have ht : t = .file c := by simpa using hl
      subst ht
      cases hdst : lookupEntry dst m with
      | none =>
        rw [hdst] at h
        simp only [mergeEntry] at h
        rw [merge_frame m rest (setEntry dst m (.file c)) res h hany]
        exact lookup_setEntry_self dst m (.file c)
      | some u =>
        rw [hdst] at h
        cases u with
        | file c2 =>
          simp only [mergeEntry] at h
          rw [merge_frame m rest (setEntry dst m (.file c)) res h hany]
          exact lookup_setEntry_self dst m (.file c)
        | dir de => simp [mergeEntry] at h
    · rw [lookupEntry, if_neg (by simpa using hmn)] at hl
      cases hmt : mergeEntry t (lookupEntry dst m) with
      | none => rw [hmt] at h; simp at h
      | some t2 =>
        rw [hmt] at h
        simp only at h
        exact ih (setEntry dst m t2) res hndrest h hl

theorem merge_dir (n : String) (se : List (String × FTree)) :
    ∀ (src dst res : List (String × FTree)),
      keysNodupB src = true →
      mergeEntries src dst = some res →
      lookupEntry src n = some (.dir se) →
      ∃ d0 de, mergeEntries se d0 = some de ∧
        lookupEntry res n = some (.dir de) := by
  intro src
  induction src with
  | nil => intro dst res _ _ hl; simp [lookupEntry] at hl
  | cons p rest ih =>
    obtain ⟨m, t⟩ := p
    intro dst res hnd h hl
    simp only [keysNodupB, Bool.and_eq_true, Bool.not_eq_eq_eq_not, Bool.not_true] at hnd
    obtain ⟨hany, hndrest⟩ := hnd
    simp only [mergeEntries] at h
    by_cases hmn : m = n
    · subst hmn
      rw [lookupEntry, if_pos (by simp)] at hl
      have ht : t = .dir se := by simpa using hl
      subst ht
      cases hdst : lookupEntry dst m with
      | none =>
        rw [hdst] at h
        simp only [mergeEntry] at h
        cases hmse : mergeEntries se [] with
        | none => rw [hmse] at h; simp at h
        | some de =>
          rw [hmse] at h
          simp only [Option.map_some'] at h
          refine ⟨[], de, hmse, ?_⟩
          rw [merge_frame m rest (setEntry dst m (.dir de)) res h hany]
          exact lookup_setEntry_self dst m (.dir de)
      | some u =>
        rw [hdst] at h
        cases u with
        | file c2 => simp [mergeEntry] at h
        | dir de0 =>
          simp only [mergeEntry] at h
          cases hmse : mergeEntries se de0 with
          | none => rw [hmse] at h; simp at h
          | some de =>
            rw [hmse] at h
            simp only [Option.map_some'] at h
            refine ⟨de0, de, hmse, ?_⟩
            rw [merge_frame m rest (setEntry dst m (.dir de)) res h hany]
            exact lookup_setEntry_self dst m (.dir de)
    · rw [lookupEntry, if_neg (by simpa using hmn)] at hl
      cases hmt : mergeEntry t (lookupEntry dst m) with
      | none => rw [hmt] at h; simp at h
      | some t2 =>
        rw [hmt] at h
        simp only at h
        exact ih (setEntry dst m t2) res hndrest h hl

theorem wfE_lookup (n : String) :
    ∀ (src : List (String × FTree)) (t : FTree),
      wfE src = true → lookupEntry src n = some t → wfTree t = true := by
  intro src
  induction src with
  | nil => intro t _ hl; simp [lookupEntry] at hl
  | cons p rest ih =>
    obtain ⟨m, u⟩ := p
    intro t hwf hl
    simp only [wfE, Bool.and_eq_true] at hwf
    by_cases hmn : m = n
    · subst hmn
      rw [lookupEntry, if_pos (by simp)] at hl
      have : u = t := by simpa using hl
      subst this
      exact hwf.1
    · rw [lookupEntry, if_neg (by simpa using hmn)] at hl
      exact ih t hwf.2 hl

theorem merge_deep (c : String) :
    ∀ (path : List String) (src dst res : List (String × FTree)),
      keysNodupB src = true → wfE src = true →
      mergeEntries src dst = some res →
      lookupPath src path = some (.file c) →
      lookupPath res path = some (.file c) := by
  intro path
  induction path with
  | nil => intro src dst res _ _ _ hp; simp [lookupPath] at hp
  | cons n q ih =>
    intro src dst res hnd hwf h hp
    cases q with
    | nil =>
      simp only [lookupPath] at hp ⊢
      exact merge_file n c src dst res hnd h hp
    | cons n2 q2 =>
      simp only [lookupPath] at hp ⊢
      cases hle : lookupEntry src n with
      | none => rw [hle] at hp; simp at hp
      | some t =>
        rw [hle] at hp
        cases t with
        | file c2 => simp at hp
        | dir se =>
          simp only at hp
          obtain ⟨d0, de, hmse, hres⟩ := merge_dir n se src dst res hnd h hle
          rw [hres]
          have hwft : wfTree (.dir se) = true := wfE_lookup n src (.dir se) hwf hle
          simp only [wfTree, Bool.and_eq_true] at hwft
          exact ih se d0 de hwft.1 hwft.2 hmse hp

theorem strData_append (s t : String) : (s ++ t).data = s.data ++ t.data := by
  cases s; cases t; rfl

theorem html_ext_data : (".html" : String).data = ['.', 'h', 't', 'm', 'l'] := rfl

theorem append_html_data (n : String) :
    (n ++ ".html").data = n.data ++ ['.', 'h', 't', 'm', 'l'] := by
  rw [strData_append, html_ext_data]

theorem append_html_ne (n : String) : n ++ ".html" ≠ n := by
  intro h
  have h2 : n.data.length + 5 = n.data.length := by
    have h3 := congrArg (fun s : String => s.data.length) h
    simpa [append_html_data] using h3
  omega

theorem append_html_inj (a b : String) (h : a ++ ".html" = b ++ ".html") : a = b := by
  have hd := congrArg String.data h
  rw [append_html_data, append_html_data] at hd
  have hab : a.data = b.data := List.append_cancel_right hd
  exact congrArg String.mk hab

theorem html_base_name_append (n : String) : html_base_name (n ++ ".html") = n := by
  unfold html_base_name
  rw [append_html_data, List.length_append]
  rw [show (['.', 'h', 't', 'm', 'l'] : List Char).length = 5 from rfl]
  rw [show n.data.length + 5 - 5 = n.data.length from by omega]
  rw [List.take_left]

theorem index_html_eq : ("index" : String) ++ ".html" = "index.html" := rfl

theorem assets_ne_append_html (n : String) : ("assets" : String) ≠ n ++ ".html" := by
  intro h
  have hd := congrArg String.data h
  rw [append_html_data] at hd
  rw [show ("assets" : String).data = ['a', 's', 's', 'e', 't', 's'] from rfl] at hd
  have hlen := congrArg List.length hd
  simp only [List.length_append, List.length_cons, List.length_nil] at hlen
  obtain ⟨c, hc⟩ := List.length_eq_one.mp (show n.data.length = 1 by omega)
  rw [hc] at hd
  simp at hd

theorem beq_name_append (n : String) : (n == n ++ ".html") = false :=
  beq_eq_false_iff_ne.mpr (fun h => append_html_ne n h.symm)

theorem toHexFixed_length (k : Nat) : ∀ v : Nat, (toHexFixed k v).length = k := by
  induction k with
  | zero => intro v; rfl
  | succ k ih => intro v; simp [toHexFixed, ih]

theorem nibble_hex (n : Nat) (h : n < 16) : isHexLowerChar (nibble n) = true := by
  interval_cases n <;> rfl

theorem toHexFixed_hex (k : Nat) :
    ∀ v : Nat, ∀ c ∈ toHexFixed k v, isHexLowerChar c = true := by
  induction k with
  | zero => intro v c hc; simp [toHexFixed] at hc
  | succ k ih =>
    intro v c hc
    simp only [toHexFixed, List.mem_append, List.mem_singleton] at hc
    rcases hc with hc | rfl
    · exact ih _ c hc
    · exact nibble_hex _ (Nat.mod_lt _ (by decide))

theorem uuidFormat_canonical (v : Nat) : IsCanonicalUUID (uuidFormat v) :=
  ⟨toHexFixed 32 v, toHexFixed_length 32 v, toHexFixed_hex 32 v, rfl⟩

/-! ## Theorems for Section 1 -/

/-- C2: for every task-status response list that contains the target task id
exactly once with status type `"complete"` and a non-empty export URL, the
polling loop of `download_page` returns that export URL after exactly one poll
and with no sleep performed. -/
theorem poll_complete_first_try (tid url : String) (r : List TaskEntry)
    (rest : List (List TaskEntry)) (e : TaskEntry)
    (hfilter : r.filter (fun s => s.id == tid) = [e])
    (hstatus : e.status = some ⟨"complete", some url⟩)
    (hurl : url ≠ "") :
    download_page_url tid (r :: rest) = .ok (⟨1, [], e⟩, some url) := by
  have hget : get_user_task_status tid r = .ok e := by
    simp [get_user_task_status, hfilter]
  have hc : isComplete e = true := by simp [isComplete, hstatus]
  simp [download_page_url, wait_for_completion, hget, hc, export_url, hstatus]

/-- Witness for C2 at a concrete one-response script. -/
theorem poll_complete_first_try_witness :
    download_page_url "task1"
        [[⟨"task1", some ⟨"complete", some "https://files/out.zip"⟩⟩]] =
      .ok (⟨1, [], ⟨"task1", some ⟨"complete", some "https://files/out.zip"⟩⟩⟩,
           some "https://files/out.zip") :=
  poll_complete_first_try "task1" "https://files/out.zip" _ []
    ⟨"task1", some ⟨"complete", some "https://files/out.zip"⟩⟩
    (by decide) rfl (by decide)

/-- C3: if the target id is present with status type `"pending"` on the first
three polls and `"complete"` on the fourth, the loop performs exactly three
sleeps of the fixed 3-second interval (and four polls) before returning. -/
theorem poll_three_pending_then_complete (tid : String)
    (r1 r2 r3 r4 : List TaskEntry) (rest : List (List TaskEntry))
    (e1 e2 e3 e4 : TaskEntry) (st1 st2 st3 st4 : TaskStatus)
    (h1 : get_user_task_status tid r1 = .ok e1)
    (h2 : get_user_task_status tid r2 = .ok e2)
    (h3 : get_user_task_status tid r3 = .ok e3)
    (h4 : get_user_task_status tid r4 = .ok e4)
    (hp1 : e1.status = some st1) (ht1 : st1.type = "pending")
    (hp2 : e2.status = some st2) (ht2 : st2.type = "pending")
    (hp3 : e3.status = some st3) (ht3 : st3.type = "pending")
    (hp4 : e4.status = some st4) (ht4 : st4.type = "complete") :
    wait_for_completion tid (r1 :: r2 :: r3 :: r4 :: rest) =
      .ok ⟨4, [3, 3, 3], e4⟩ := by
  have hc1 : isComplete e1 = false := by simp [isComplete, hp1, ht1]
  have hc2 : isComplete e2 = false := by simp [isComplete, hp2, ht2]
  have hc3 : isComplete e3 = false := by simp [isComplete, hp3, ht3]
  have hc4 : isComplete e4 = true := by simp [isComplete, hp4, ht4]
  simp [wait_for_completion, h1, h2, h3, h4, hc1, hc2, hc3, hc4, wait_time]

/-- Witness for C3 at a concrete four-response script. -/
theorem poll_three_pending_then_complete_witness :
    wait_for_completion "t"
        [[⟨"t", some ⟨"pending", none⟩⟩], [⟨"t", some ⟨"pending", none⟩⟩],
         [⟨"t", some ⟨"pending", none⟩⟩], [⟨"t", some ⟨"complete", some "u"⟩⟩]] =
      .ok ⟨4, [3, 3, 3], ⟨"t", some ⟨"complete", some "u"⟩⟩⟩ :=
  poll_three_pending_then_complete "t" _ _ _ _ []
    ⟨"t", some ⟨"pending", none⟩⟩ ⟨"t", some ⟨"pending", none⟩⟩
    ⟨"t", some ⟨"pending", none⟩⟩ ⟨"t", some ⟨"complete", some "u"⟩⟩
    ⟨"pending", none⟩ ⟨"pending", none⟩ ⟨"pending", none⟩ ⟨"complete", some "u"⟩
    rfl rfl rfl rfl
    rfl rfl rfl rfl rfl rfl rfl rfl

/-- C4: for every status response batch whose results list does not contain
the target task id, `get_user_task_status` fails (the spec's
`ExportStatusError`; an `IndexError` in the source) rather than looping
forever or returning a value. -/
theorem poll_missing_id_errors (tid : String) (results : List TaskEntry)
    (h : ∀ e ∈ results, e.id ≠ tid) :
    get_user_task_status tid results = .error .statusError := by
  have hfilter : results.filter (fun s => s.id == tid) = [] := by
    simp only [List.filter_eq_nil_iff]
    intro e he
    simpa using h e he
  simp [get_user_task_status, hfilter]

/-- Witness for C4 at a concrete batch missing the target id. -/
theorem poll_missing_id_errors_witness :
    get_user_task_status "t" [⟨"other", none⟩, ⟨"other2", some ⟨"complete", none⟩⟩] =
      .error .statusError :=
  poll_missing_id_errors "t" _ (by decide)

/-- C9: when the entry matching the target id lacks a `"status"` key, or its
status type is anything other than `"complete"`, the loop of `download_page`
treats the task as still in progress: it records one `wait_time` sleep and
continues with the next response (propagating that continuation's result),
rather than raising an error. -/
theorem poll_incomplete_continues (tid : String) (r : List TaskEntry)
    (rest : List (List TaskEntry)) (e : TaskEntry)
    (hget : get_user_task_status tid r = .ok e)
    (hnc : e.status = none ∨ ∃ st, e.status = some st ∧ st.type ≠ "complete") :
    (∀ o : PollOutcome, wait_for_completion tid rest = .ok o →
        wait_for_completion tid (r :: rest) =
          .ok ⟨o.polls + 1, wait_time :: o.sleeps, o.final⟩) ∧
    (∀ err : PollError, wait_for_completion tid rest = .error err →
        wait_for_completion tid (r :: rest) = .error err) := by
  have hc : isComplete e = false := by
    rcases hnc with h0 | ⟨st, hst, hty⟩
    · simp [isComplete, h0]
    · simp [isComplete, hst, hty]
  constructor
  · intro o ho
    simp [wait_for_completion, hget, hc, ho]
  · intro err herr
    simp [wait_for_completion, hget, hc, herr]

/-- Witness for C9: an entry without a `"status"` key leads to one sleep and a
re-poll that succeeds on the next response. -/
theorem poll_incomplete_continues_witness :
    wait_for_completion "t"
        [[⟨"t", none⟩], [⟨"t", some ⟨"complete", some "u"⟩⟩]] =
      .ok ⟨2, [3], ⟨"t", some ⟨"complete", some "u"⟩⟩⟩ :=
  (poll_incomplete_continues "t" [⟨"t", none⟩]
      [[⟨"t", some ⟨"complete", some "u"⟩⟩]] ⟨"t", none⟩
      rfl (Or.inl rfl)).1
    ⟨1, [], ⟨"t", some ⟨"complete", some "u"⟩⟩⟩ rfl

/-- C10: when the results list contains two or more entries with the target
id, `get_user_task_status` deterministically returns the first matching entry
in the response's list order. -/
theorem poll_first_match_returned (tid : String) (l1 l2 : List TaskEntry)
    (e : TaskEntry)
    (hbefore : ∀ x ∈ l1, x.id ≠ tid)
    (he : e.id = tid)
    (hmult : 2 ≤ ((l1 ++ e :: l2).filter (fun s => s.id == tid)).length) :
    get_user_task_status tid (l1 ++ e :: l2) = .ok e := by
  have hl1 : l1.filter (fun s => s.id == tid) = [] := by
    simp only [List.filter_eq_nil_iff]
    intro x hx
    simpa using hbefore x hx
  have hfilter : (l1 ++ e :: l2).filter (fun s => s.id == tid) =
      e :: l2.filter (fun s => s.id == tid) := by
    simp [List.filter_append, hl1, List.filter_cons, he]
  simp [get_user_task_status, hfilter]

/-- Witness for C10: a batch holding the target id twice returns the first
matching entry. -/
theorem poll_first_match_returned_witness :
    get_user_task_status "t"
        [⟨"a", none⟩, ⟨"t", some ⟨"pending", none⟩⟩, ⟨"t", some ⟨"complete", some "u"⟩⟩] =
      .ok ⟨"t", some ⟨"pending", none⟩⟩ :=
  poll_first_match_returned "t" [⟨"a", none⟩] [⟨"t", some ⟨"complete", some "u"⟩⟩]
    ⟨"t", some ⟨"pending", none⟩⟩ (by decide) rfl (by decide)

/-! ## Theorems for Section 2 -/

/-- C6: for all valid textual UUID forms, `load_notion_config` normalises the
`space_id` and `block_id` fields to the canonical dashed-lowercase string of
the denoted 128-bit value, so two forms denoting the same value normalise to
identical output. -/
theorem config_uuid_normalization (email s1 s2 b1 b2 : String) (v w : Nat)
    (hs1 : uuidValue s1 = some v) (hs2 : uuidValue s2 = some v)
    (hb1 : uuidValue b1 = some w) (hb2 : uuidValue b2 = some w) :
    load_notion_config ⟨email, s1, b1⟩ =
      some ⟨email, uuidFormat v, uuidFormat w⟩ ∧
    load_notion_config ⟨email, s2, b2⟩ =
      some ⟨email, uuidFormat v, uuidFormat w⟩ ∧
    IsCanonicalUUID (uuidFormat v) ∧ IsCanonicalUUID (uuidFormat w) := by
  refine ⟨?_, ?_, uuidFormat_canonical v, uuidFormat_canonical w⟩
  · simp [load_notion_config, pyUUID, hs1, hb1]
  · simp [load_notion_config, pyUUID, hs2, hb2]

/-- Witness for C6: an undashed mixed-case form, a braced dashed form, a plain
dashed form and a `urn:uuid:` form of the same UUID all normalise to the same
canonical string. -/
theorem config_uuid_normalization_witness :
    load_notion_config
        ⟨"me@example.com", "0123456789ABCDEF0123456789abcdef",
         "01234567-89ab-cdef-0123-456789abcdef"⟩ =
      some ⟨"me@example.com",
            uuidFormat 0x0123456789abcdef0123456789abcdef,
            uuidFormat 0x0123456789abcdef0123456789abcdef⟩ ∧
    load_notion_config
        ⟨"me@example.com", "\x7b01234567-89AB-cdef-0123-456789abcdef\x7d",
         "urn:uuid:01234567-89ab-cdef-0123-456789abcdef"⟩ =
      some ⟨"me@example.com",
            uuidFormat 0x0123456789abcdef0123456789abcdef,
            uuidFormat 0x0123456789abcdef0123456789abcdef⟩ ∧
    IsCanonicalUUID (uuidFormat 0x0123456789abcdef0123456789abcdef) ∧
    IsCanonicalUUID (uuidFormat 0x0123456789abcdef0123456789abcdef) :=
  config_uuid_normalization "me@example.com"
    "0123456789ABCDEF0123456789abcdef"
    "\x7b01234567-89AB-cdef-0123-456789abcdef\x7d"
    "01234567-89ab-cdef-0123-456789abcdef"
    "urn:uuid:01234567-89ab-cdef-0123-456789abcdef"
    0x0123456789abcdef0123456789abcdef 0x0123456789abcdef0123456789abcdef
    (by decide) (by decide) (by decide) (by decide)

/-! ## Theorems for Section 3 -/

/-- C8: whenever no session token is supplied (`NOTION_TOKEN` unset or set to
the empty string), `main` performs only the credential exchange — `ask_otp`
then `get_token` — and exits; it invokes none of the export-enqueue,
status-poll, download, unpack, rewrite or publish operations in that run. -/
theorem main_no_token_early_exit (token : Option String) (extraPolls : Nat)
    (h : token = none ∨ token = some "") :
    main_actions token extraPolls = [.askOtp, .getToken] ∧
    ∀ a ∈ main_actions token extraPolls,
      a ≠ .enqueueExport ∧ a ≠ .pollStatus ∧ a ≠ .downloadArchive ∧
      a ≠ .unpack ∧ a ≠ .rewriteSite ∧ a ≠ .publishSite := by
  have hm : main_actions token extraPolls = [.askOtp, .getToken] := by
    rcases h with rfl | rfl <;> simp [main_actions]
  refine ⟨hm, ?_⟩
  rw [hm]
  intro a ha
  simp only [List.mem_cons, List.not_mem_nil, or_false] at ha
  rcases ha with rfl | rfl <;> decide

/-- Witness for C8 with the token variable unset. -/
theorem main_no_token_early_exit_witness :
    main_actions none 0 = [.askOtp, .getToken] ∧
    ∀ a ∈ main_actions none 0,
      a ≠ .enqueueExport ∧ a ≠ .pollStatus ∧ a ≠ .downloadArchive ∧
      a ≠ .unpack ∧ a ≠ .rewriteSite ∧ a ≠ .publishSite :=
  main_no_token_early_exit none 0 (Or.inl rfl)

/-! ## Theorems for Section 4 -/

/-- C5: whenever the `*.html` glob of the extracted directory finds a number
of matches other than one — zero, or two or more top-level HTML files —
`rewrite_html` fails with the layout assertion (the spec's `LayoutError`) and
leaves the directory untouched: the error carries the unmodified contents. -/
theorem rewrite_layout_error (d : List Entry) (h : (glob_html d).length ≠ 1) :
    rewrite_html d = .error (.layoutError, d) := by
  cases hg : glob_html d with
  | nil => simp [rewrite_html, hg]
  | cons e rest =>
    cases rest with
    | nil => rw [hg] at h; simp at h
    | cons e2 rest2 => simp [rewrite_html, hg]

/-- Witness for C5: a directory with two top-level HTML files, one of them
hidden — pathlib's glob matches both, so the assert fires. -/
theorem rewrite_layout_error_witness :
    rewrite_html [⟨"a.html", false, "x"⟩, ⟨".b.html", false, "y"⟩] =
      .error (.layoutError, [⟨"a.html", false, "x"⟩, ⟨".b.html", false, "y"⟩]) :=
  rewrite_layout_error [⟨"a.html", false, "x"⟩, ⟨".b.html", false, "y"⟩] (by decide)

/-- C1 (counterexample to the claim as stated): with `<name> = "index"` the
directory `[index.html, index/]` satisfies the claim's precondition — exactly
one top-level HTML file, named `<name>.html`, whose text contains the
percent-encoded `<name>`, with a sibling directory `<name>` — and
`rewrite_html` succeeds, but a file named `<name>.html` (here `index.html`
itself) remains afterwards, contradicting the claim's final conjunct that no
file named `<name>.html` remains. -/
theorem rewrite_roundtrip_original_fails :
    ∃ l, rewrite_html [⟨"index" ++ ".html", false, "<a href=index>x</a>"⟩,
                       ⟨"index", true, "IMG"⟩] = .ok l ∧
      ¬ (∀ e ∈ l, e.name ≠ "index" ++ ".html") :=
  ⟨[⟨"index.html", false, rewritten_content "<a href=index>x</a>" "index"⟩,
    ⟨"assets", true, "IMG"⟩],
   rfl,
   fun h => h ⟨"index.html", false, rewritten_content "<a href=index>x</a>" "index"⟩
     (by simp) rfl⟩

/-- C1 (amended): for an extracted directory holding exactly the pristine
export — one `*.html` glob match, the file `<name>.html`, together with the
sibling asset directory `<name>`, in either listing order — `rewrite_html`
succeeds, and the directory afterwards holds exactly `index.html`, whose text
is the original text with every occurrence of `urllib.parse.quote(<name>)`
replaced by `assets` and the stylesheet and favicon tags appended, and
`assets`, the renamed former asset directory.  Moreover, provided
`<name> ≠ "index"`, no file named `<name>.html` remains (for
`<name> = "index"` the rewritten `index.html` is itself a file of that
name — the corner the original claim misses). -/
theorem rewrite_roundtrip_amended
    (name content acontent : String) (d : List Entry)
    (hd : d = [⟨name ++ ".html", false, content⟩, ⟨name, true, acontent⟩] ∨
          d = [⟨name, true, acontent⟩, ⟨name ++ ".html", false, content⟩])
    (hglob : glob_html d = [⟨name ++ ".html", false, content⟩]) :
    ∃ l, rewrite_html d = .ok l ∧
      l.Perm [⟨"index.html", false, rewritten_content content name⟩,
              ⟨"assets", true, acontent⟩] ∧
      (name ≠ "index" → ∀ e ∈ l, e.name ≠ name ++ ".html") := by
  have hA : globStarHtml name = false := by
    by_contra hA
    rw [Bool.not_eq_false] at hA
    have hmem : (⟨name, true, acontent⟩ : Entry) ∈ glob_html d := by
      rcases hd with rfl | rfl <;> simp [glob_html, List.mem_filter, hA]
    rw [hglob] at hmem
    simp at hmem
  have hn_ih : name ≠ "index.html" := by
    intro h
    rw [h] at hA
    exact absurd hA (by decide)
  have hb1 : ((name : String) == name ++ ".html") = false := beq_name_append name
  have hb3 : ((name : String) == "index.html") = false :=
    beq_eq_false_iff_ne.mpr hn_ih
  have hb4 : (("index.html" : String) == name) = false :=
    beq_eq_false_iff_ne.mpr (Ne.symm hn_ih)
  by_cases hidx : name = "index"
  · subst hidx
    rcases hd with rfl | rfl
    · exact ⟨_, rfl, List.Perm.refl _, fun h => absurd rfl h⟩
    · exact ⟨_, rfl, List.Perm.swap _ _ _, fun h => absurd rfl h⟩
  · by_cases hass : name = "assets"
    · subst hass
      rcases hd with rfl | rfl
      · refine ⟨[⟨"index.html", false, rewritten_content content "assets"⟩,
                 ⟨"assets", true, acontent⟩], rfl, List.Perm.refl _, fun _ e he => ?_⟩
        simp only [List.mem_cons, List.not_mem_nil, or_false] at he
        rcases he with rfl | rfl
        · exact (by decide : ("index.html" : String) ≠ "assets" ++ ".html")
        · exact (by decide : ("assets" : String) ≠ "assets" ++ ".html")
      · refine ⟨[⟨"assets", true, acontent⟩,
                 ⟨"index.html", false, rewritten_content content "assets"⟩], rfl,
                 List.Perm.swap _ _ _, fun _ e he => ?_⟩
        simp only [List.mem_cons, List.not_mem_nil, or_false] at he
        rcases he with rfl | rfl
        · exact (by decide : ("assets" : String) ≠ "assets" ++ ".html")
        · exact (by decide : ("index.html" : String) ≠ "assets" ++ ".html")
    · have hb5 : ((name ++ ".html" : String) == "index.html") = false := by
        refine beq_eq_false_iff_ne.mpr (fun h => ?_)
        rw [← index_html_eq] at h
        exact hidx (append_html_inj name "index" h)
      have hb6 : ((name : String) == "assets") = false :=
        beq_eq_false_iff_ne.mpr hass
      have hb7 : (("index.html" : String) == "assets") = false := by decide
      rcases hd with rfl | rfl
      · simp only [rewrite_html, hglob, rename_entry, List.find?, List.map,
          html_base_name_append, beq_self_eq_true, hb1, hb3, hb4, hb5, hb6, hb7,
          Bool.false_eq_true, if_false, if_true]
        refine ⟨_, rfl, ?_, fun hn e he => ?_⟩
        · exact List.Perm.refl _
        · simp only [List.mem_cons, List.not_mem_nil, or_false] at he
          rcases he with rfl | rfl
          · show ("index.html" : String) ≠ name ++ ".html"
            intro h
            rw [← index_html_eq] at h
            exact hidx (append_html_inj "index" name h).symm
          · show ("assets" : String) ≠ name ++ ".html"
            exact assets_ne_append_html name
      · simp only [rewrite_html, hglob, rename_entry, List.find?, List.map,
          html_base_name_append, beq_self_eq_true, hb1, hb3, hb4, hb5, hb6, hb7,
          Bool.false_eq_true, if_false, if_true]
        refine ⟨_, rfl, ?_, fun hn e he => ?_⟩
        · exact List.Perm.swap _ _ _
        · simp only [List.mem_cons, List.not_mem_nil, or_false] at he
          rcases he with rfl | rfl
          · show ("assets" : String) ≠ name ++ ".html"
            exact assets_ne_append_html name
          · show ("index.html" : String) ≠ name ++ ".html"
            intro h
            rw [← index_html_eq] at h
            exact hidx (append_html_inj "index" name h).symm

/-- Witness for the amended C1 at the spec's own example name
`page-abc123`. -/
theorem rewrite_roundtrip_amended_witness :
    ∃ l, rewrite_html [⟨"page-abc123" ++ ".html", false, "<a href=page-abc123/x.png>"⟩,
                       ⟨"page-abc123", true, "PNG"⟩] = .ok l ∧
      l.Perm [⟨"index.html", false,
               rewritten_content "<a href=page-abc123/x.png>" "page-abc123"⟩,
              ⟨"assets", true, "PNG"⟩] ∧
      ("page-abc123" ≠ "index" → ∀ e ∈ l, e.name ≠ "page-abc123" ++ ".html") :=
  rewrite_roundtrip_amended "page-abc123" "<a href=page-abc123/x.png>" "PNG" _
    (Or.inl rfl) (by decide)

/-! ## Theorems for Section 5 -/

/-- C7: publishing with `shutil.copytree(..., dirs_exist_ok=True)` is a
merge-copy.  For a well-formed rewritten site tree `src` copied over a
deployment directory `dst`: every pre-existing top-level entry whose name
does not occur in `src` (an unrelated `README.md`, `styles.css`, `favicon/`)
is left exactly as it was in `dst`, while every file of the rewritten tree —
`index.html`, and each file under `assets/` — appears at its path in the
result with the latest rewritten content. -/
theorem publish_merge_copy (src dst res : List (String × FTree))
    (hnd : keysNodupB src = true) (hwf : wfE src = true)
    (h : mergeEntries src dst = some res) :
    (∀ n : String, src.any (fun p => p.1 == n) = false →
        lookupEntry res n = lookupEntry dst n) ∧
    (∀ (path : List String) (c : String),
        lookupPath src path = some (.file c) →
        lookupPath res path = some (.file c)) := by
  constructor
  · intro n hn
    exact merge_frame n src dst res h hn
  · intro path c hp
    exact merge_deep c path src dst res hnd hwf h hp

/-- Witness for C7: merging the concrete rewritten site over a deployment
directory keeps the unrelated `README.md` byte-for-byte and installs the new
`index.html` and `assets/img.png`. -/
theorem publish_merge_copy_witness :
    lookupEntry resSiteEx "README.md" = lookupEntry dstSiteEx "README.md" ∧
    lookupPath resSiteEx ["index.html"] = some (.file "new-index") ∧
    lookupPath resSiteEx ["assets", "img.png"] = some (.file "new-img") := by
  have H := publish_merge_copy srcSiteEx dstSiteEx resSiteEx rfl rfl rfl
  exact ⟨H.1 "README.md" rfl, H.2 ["index.html"] "new-index" rfl,
         H.2 ["assets", "img.png"] "new-img" rfl⟩
